import Mathlib

/-!
Shallow embedding of `src/train_model.py`: a transfer-learning script that
fine-tunes a pretrained resnet50 on a 133-class image dataset.

The script's own logic is embedded faithfully; external framework internals
(autodiff numerics, the AdamW update formula, image interpolation, pretrained
weights) are opaque collaborators and enter as explicit oracle parameters.
Machine floats are modelled as rationals.
-/

/-- A single learnable parameter entry of a torch module: its value, its
accumulated gradient, and its `requires_grad` flag.  A torch parameter tensor
is modelled as a list of such entries. -/
structure Param where
  value : ℚ
  grad : ℚ
  requiresGrad : Bool
deriving Repr, DecidableEq

/-- The parameter state of the model built by `net()`: the pretrained
backbone parameters (everything outside `model.fc`), the parameters of the
`model.fc` head, and the train/eval mode flag toggled by `model.train()` /
`model.eval()`. `model.parameters()` enumerates backbone then fc (the fc is
the last registered submodule of resnet50). -/
structure NetState where
  backboneParams : List Param
  fcParams : List Param
  trainingMode : Bool
deriving Repr, DecidableEq

/-- `optimizer.zero_grad()` for the optimizer of `main`
(line 137: `optim.AdamW(model.fc.parameters(), ...)`): clears the gradients
of the parameters the optimizer is bound to, i.e. exactly the fc head. -/
def zeroGradFC (m : NetState) : NetState :=
  { m with fcParams := m.fcParams.map (fun p => { p with grad := 0 }) }

/-- Gradient accumulation over a parameter list: each parameter with
`requires_grad = True` receives the (oracle-supplied) gradient contribution
for its index; frozen parameters are left untouched.  The gradient values
themselves come from autodiff, which is outside this script. -/
def accumGrads (g : ℕ → ℚ) : ℕ → List Param → List Param
  | _, [] => []
  | i, p :: ps =>
      (if p.requiresGrad then { p with grad := p.grad + g i } else p)
        :: accumGrads g (i + 1) ps

/-- `loss.backward()`: accumulates gradients into every parameter of the
model that requires grad (backbone entries first, then fc, matching the
`model.parameters()` order). -/
def backwardStep (g : ℕ → ℚ) (m : NetState) : NetState :=
  { m with
    backboneParams := accumGrads g 0 m.backboneParams
    fcParams := accumGrads g m.backboneParams.length m.fcParams }

/-- `optimizer.step()` for the optimizer of `main` (bound to
`model.fc.parameters()` only): each bound parameter that carries a gradient
is updated by the AdamW rule, abstracted as an oracle `upd` on
(value, grad).  Parameters outside the bound set are never touched. -/
def optStepFC (upd : ℚ → ℚ → ℚ) (m : NetState) : NetState :=
  { m with
    fcParams := m.fcParams.map
      (fun p => if p.requiresGrad then { p with value := upd p.value p.grad } else p) }

/-- One batch as seen by the loops: the labels `lab`, and the
framework-produced data for this iteration — the model outputs
`out = model(inp)` (one score row per sample), the scalar `loss.item()`,
and the gradient assignment performed by `loss.backward()`.  The loader
yields aligned image/label pairs, so `inp.size(0) = len(inp) = labels.length`. -/
structure BatchData where
  labels : List ℕ
  out : List (List ℚ)
  lossVal : ℚ
  grads : ℕ → ℚ

/-- Scanner for `argmaxIdx`: `i` is the index of the next element, `bi`/`bv`
the best index and value so far (ties keep the earlier index). -/
def argmaxGo (i bi : ℕ) (bv : ℚ) : List ℚ → ℕ
  | [] => bi
  | x :: xs => if bv < x then argmaxGo (i + 1) i x xs else argmaxGo (i + 1) bi bv xs

/-- `out.argmax(dim=1)` for one row: index of the (first) maximal entry. -/
def argmaxIdx : List ℚ → ℕ
  | [] => 0
  | x :: xs => argmaxGo 1 0 x xs

/-- `pred.eq(lab.view_as(pred)).sum().item()`: how many predictions match
their labels. -/
def countMatches (preds labs : List ℕ) : ℕ :=
  (preds.zip labs).countP (fun pl => pl.1 = pl.2)

/-- The mutable state of one pass of the training loop `train`
(lines 48–72): the model plus the accumulators `run_loss`,
`running_corrects`, `running_samples`, and the number of progress log
lines emitted so far. -/
structure LoopState where
  net : NetState
  run_loss : ℚ
  running_corrects : ℕ
  running_samples : ℕ
  logLines : ℕ

/-- One iteration of the `for inp, lab in train_loader` body of `train`
(lines 51–72): `optimizer.zero_grad()`; forward; loss; `pred = argmax`;
accumulate `run_loss += loss.item() * inp.size(0)`,
`running_corrects += matches`, `running_samples += len(inp)`;
`loss.backward()`; `optimizer.step()`; and a progress log line iff
`running_samples % 500 == 0`. -/
def trainBatchStep (upd : ℚ → ℚ → ℚ) (s : LoopState) (b : BatchData) : LoopState :=
  let net1 := zeroGradFC s.net
  let preds := b.out.map argmaxIdx
  let run_loss := s.run_loss + b.lossVal * b.labels.length
  let running_corrects := s.running_corrects + countMatches preds b.labels
  let running_samples := s.running_samples + b.labels.length
  let net2 := backwardStep b.grads net1
  let net3 := optStepFC upd net2
  let logLines := if running_samples % 500 = 0 then s.logLines + 1 else s.logLines
  { net := net3, run_loss := run_loss, running_corrects := running_corrects,
    running_samples := running_samples, logLines := logLines }

/-- One full pass of the training loop `train` (lines 44–78):
`model.train()`, reset the accumulators, then fold the batch body over the
loader's batches. -/
def trainEpoch (upd : ℚ → ℚ → ℚ) (batches : List BatchData) (m : NetState) : LoopState :=
  batches.foldl (trainBatchStep upd)
    { net := { m with trainingMode := true }, run_loss := 0,
      running_corrects := 0, running_samples := 0, logLines := 0 }

/-- The state of one pass of the evaluation loop `test` (lines 26–36):
the model plus `run_loss` and `running_corrects` (no sample counter and no
mid-epoch logging in `test`). -/
structure TestState where
  net : NetState
  run_loss : ℚ
  running_corrects : ℕ

/-- One iteration of the `for inp, lab in test_loader` body of `test`
(lines 29–36), executed under `torch.no_grad()`: forward, loss, argmax,
and the two accumulators.  No gradient is produced and no optimizer step
runs, so no statement of the body writes to a parameter. -/
def testBatchStep (s : TestState) (b : BatchData) : TestState :=
  let preds := b.out.map argmaxIdx
  { net := s.net,
    run_loss := s.run_loss + b.lossVal * b.labels.length,
    running_corrects := s.running_corrects + countMatches preds b.labels }

/-- One full pass of the evaluation loop `test` (lines 22–42):
`model.eval()`, reset the accumulators, then fold the batch body over the
test loader's batches. -/
def testEpoch (batches : List BatchData) (m : NetState) : TestState :=
  batches.foldl testBatchStep
    { net := { m with trainingMode := false }, run_loss := 0, running_corrects := 0 }

/-- Epoch-end average loss (lines 38 and 73):
`run_loss / len(loader.dataset)`. -/
def epochAvgLoss (runLoss : ℚ) (datasetSize : ℕ) : ℚ := runLoss / datasetSize

/-- Epoch-end accuracy (lines 39 and 74):
`running_corrects / len(loader.dataset)`. -/
def epochAccuracy (corrects datasetSize : ℕ) : ℚ := (corrects : ℚ) / datasetSize

/-- An `nn.Linear(inFeatures, outFeatures)` module: a weight matrix of
`outFeatures` rows of length `inFeatures` and a bias vector, both made of
`Param` entries. -/
structure LinearLayer where
  inFeatures : ℕ
  outFeatures : ℕ
  weight : List (List Param)
  bias : List Param

/-- A layer of the `nn.Sequential` head: either a linear module or a
`nn.ReLU(inplace=True)`. -/
inductive HeadLayer where
  | linear (l : LinearLayer)
  | relu

/-- A freshly constructed `nn.Linear` from given (randomly initialised)
weights: torch gives new parameters `requires_grad = True`. -/
def mkLinear (inF outF : ℕ) (w : List (List ℚ)) (b : List ℚ) : LinearLayer :=
  ⟨inF, outF, w.map (fun row => row.map (fun v => ⟨v, 0, true⟩)),
    b.map (fun v => ⟨v, 0, true⟩)⟩

/-- `param.requires_grad = False` on one parameter entry. -/
def freezeParam (p : Param) : Param := ⟨p.value, p.grad, false⟩

/-- Freezing every parameter of a head layer. -/
def freezeHeadLayer : HeadLayer → HeadLayer
  | .linear l => .linear ⟨l.inFeatures, l.outFeatures,
      l.weight.map (fun row => row.map freezeParam), l.bias.map freezeParam⟩
  | .relu => .relu

/-- The structural model: `models.resnet50(...)` as this script sees it.
The convolutional backbone is opaque — its parameter entries and its
feature map (image tensor to pooled feature vector) are oracle fields —
while `model.fc` is explicit.  The pretrained network has
`fc = [linear (2048 → 1000)]`; `net()` replaces it with a `Sequential`. -/
structure Resnet50 where
  backboneParams : List Param
  features : List ℚ → List ℚ
  fc : List HeadLayer

/-- `model.fc.in_features` read off the head (the pretrained head is a
single linear module; other shapes would be an attribute error in the
source and are mapped to 0 here). -/
def fcInFeaturesOf : List HeadLayer → ℕ
  | .linear l :: _ => l.inFeatures
  | _ => 0

/-- `model.fc.in_features` of a model. -/
def fcInFeatures (m : Resnet50) : ℕ := fcInFeaturesOf m.fc

/-- The model factory `net()` (lines 80–92): take the pretrained resnet50
(the external weights enter as `pre`), set `requires_grad = False` on every
parameter (`for param in model.parameters()`), read
`num_features = model.fc.in_features`, and replace `model.fc` with
`Sequential(Linear(num_features, 256), ReLU, Linear(256, 133), ReLU)`.
`w1, b1, w2, b2` are the random initial weights torch draws for the two new
linear modules. -/
def net (pre : Resnet50) (w1 : List (List ℚ)) (b1 : List ℚ)
    (w2 : List (List ℚ)) (b2 : List ℚ) : Resnet50 :=
  let frozen : Resnet50 :=
    { backboneParams := pre.backboneParams.map freezeParam,
      features := pre.features,
      fc := pre.fc.map freezeHeadLayer }
  let num_features := fcInFeatures frozen
  { frozen with
    fc := [.linear (mkLinear num_features 256 w1 b1), .relu,
           .linear (mkLinear 256 133 w2 b2), .relu] }

/-- Dot product of two rational vectors (truncating like a dimension match
would enforce). -/
def dotQ (a b : List ℚ) : ℚ := ((a.zip b).map (fun p => p.1 * p.2)).sum

/-- Elementwise ReLU: x ↦ max(x, 0). -/
def reluVec (v : List ℚ) : List ℚ := v.map (fun x => if x ≤ 0 then 0 else x)

/-- Forward pass of a linear layer: one output per (weight row, bias). -/
def applyLinear (l : LinearLayer) (x : List ℚ) : List ℚ :=
  (l.weight.zip l.bias).map (fun wb => dotQ (wb.1.map Param.value) x + wb.2.value)

/-- Forward pass of one head layer. -/
def applyHeadLayer (x : List ℚ) : HeadLayer → List ℚ
  | .linear l => applyLinear l x
  | .relu => reluVec x

/-- `model(inp)` for one sample: backbone features, then the fc head. -/
def Resnet50.forward (m : Resnet50) (x : List ℚ) : List ℚ :=
  m.fc.foldl applyHeadLayer (m.features x)

/-- All parameters of a linear layer (weight entries, then bias). -/
def linearParams (l : LinearLayer) : List Param := l.weight.flatten ++ l.bias

/-- All parameters of a head layer. -/
def headLayerParams : HeadLayer → List Param
  | .linear l => linearParams l
  | .relu => []

/-- The flat parameter state of a structural model, as the training-loop
embedding sees it (`model.parameters()` order: backbone first, then fc;
a fresh module starts in training mode). -/
def Resnet50.paramState (m : Resnet50) : NetState :=
  ⟨m.backboneParams, (m.fc.map headLayerParams).flatten, true⟩

/-- `torch.utils.data.DataLoader` batching: split a sequence into
consecutive chunks of `bs` (the last one possibly shorter), the default
`drop_last=False` behaviour. -/
def chunkGo (bs : ℕ) : ℕ → List α → List (List α)
  | _, [] => []
  | 0, _ :: _ => []
  | fuel + 1, x :: xs => (x :: xs).take bs :: chunkGo bs fuel ((x :: xs).drop bs)

/-- `chunkList bs l` splits `l` into consecutive batches of `bs` (fuel is
`l.length`, enough for any positive `bs`; `DataLoader` rejects
`batch_size = 0`, mapped to no batches here). -/
def chunkList (bs : ℕ) (l : List α) : List (List α) :=
  if bs = 0 then [] else chunkGo bs l.length l

/-- `shuffle=True` sampling for one pass: the random sampler draws a
permutation of the index range; `σ` is that draw (reduced mod the length so
any oracle yields in-range indices).  A dataset element is its label. -/
def shuffleBy (σ : ℕ → ℕ) (ds : List ℕ) : List ℕ :=
  (List.range ds.length).map (fun i => ds.getD (σ i % ds.length) 0)

/-- A constructed `DataLoader`: the underlying `ImageFolder` dataset (as its
label sequence), the batch size, and the `shuffle` flag
(line 113: `shuffle=True` for train; line 114: default `False` for test). -/
structure DataLoaderSpec where
  dataset : List ℕ
  batch_size : ℕ
  shuffle : Bool

/-- The batch sequence one pass of a loader yields, given the pass's
random draw `σ` (used only when `shuffle` is set). -/
def loaderBatches (dl : DataLoaderSpec) (σ : ℕ → ℕ) : List (List ℕ) :=
  if dl.shuffle then chunkList dl.batch_size (shuffleBy σ dl.dataset)
  else chunkList dl.batch_size dl.dataset

/-- `create_data_loaders` (lines 94–116), filesystem facet: `fs` maps a
directory path to its `ImageFolder` contents when the directory exists.
`ImageFolder(root=...)` raises `FileNotFoundError` when the root is missing
(line 110 runs before line 111, so the train directory is probed first);
otherwise the two loaders are built, train shuffled, test not. -/
def create_data_loaders (fs : String → Option (List ℕ)) (data : String)
    (batch_size : ℕ) : Except String (DataLoaderSpec × DataLoaderSpec) :=
  match fs (data ++ "/train") with
  | none => .error "FileNotFoundError"
  | some train_dataset =>
    match fs (data ++ "/test") with
    | none => .error "FileNotFoundError"
    | some test_dataset =>
      .ok (⟨train_dataset, batch_size, true⟩, ⟨test_dataset, batch_size, false⟩)

/-- An image as a rational pixel grid (one channel suffices for the
geometry of the transforms). -/
abbrev QImage := List (List ℚ)

/-- Pixel access with out-of-range reads giving 0. -/
def pixAt (img : QImage) (r c : ℕ) : ℚ := (img.getD r []).getD c 0

/-- Nearest-neighbour resample of the rectangle at `(top, left)` of size
`h × w` to an `oh × ow` grid (a computable model of the library's
interpolation; the float interpolation kernel is external). -/
def resampleRect (img : QImage) (top left h w oh ow : ℕ) : QImage :=
  (List.range oh).map (fun r =>
    (List.range ow).map (fun c =>
      pixAt img (top + r * h / oh) (left + c * w / ow)))

/-- `transforms.Resize(256)`: scale so the shorter edge becomes 256,
preserving aspect ratio. -/
def resize256 (img : QImage) : QImage :=
  let h := img.length
  let w := (img.headD []).length
  if h ≤ w then resampleRect img 0 0 h w 256 (256 * w / h)
  else resampleRect img 0 0 h w (256 * h / w) 256

/-- Minimum of two naturals, written out so concrete instances evaluate. -/
def natMin (a b : ℕ) : ℕ := if a ≤ b then a else b

/-- Maximum of two naturals, written out so concrete instances evaluate. -/
def natMax (a b : ℕ) : ℕ := if a ≤ b then b else a

/-- The crop rectangle drawn by `RandomResizedCrop.get_params`: the library
samples a random area and aspect ratio and a random position; the draw is
an oracle input to the transform. -/
structure CropParams where
  top : ℕ
  left : ℕ
  height : ℕ
  width : ℕ

/-- `transforms.RandomResizedCrop((224, 224))`: crop the randomly drawn
rectangle (clamped to the image bounds) and resize it to 224 × 224. -/
def randomResizedCrop (p : CropParams) (img : QImage) : QImage :=
  let ih := img.length
  let iw := (img.headD []).length
  let h := natMin (natMax p.height 1) ih
  let w := natMin (natMax p.width 1) iw
  resampleRect img (natMin p.top (ih - h)) (natMin p.left (iw - w)) h w 224 224

/-- Division of a rational by 255 in explicitly normalized form (so that
concrete instances evaluate); `divBy255_eq` shows it is `x / 255`. -/
def divBy255 (x : ℚ) : ℚ := mkRat x.num (x.den * 255)

/-- `transforms.ToTensor()`: scale 0–255 pixel values into [0, 1]. -/
def toTensorQ (img : QImage) : QImage := img.map (fun row => row.map divBy255)

/-- The `testing_transform` pipeline (lines 105–108):
`Compose([Resize(256), RandomResizedCrop((224, 224)), ToTensor()])`;
`p` is the crop draw consumed by the random crop. -/
def testing_transform (p : CropParams) (img : QImage) : QImage :=
  toTensorQ (randomResizedCrop p (resize256 img))

/-- The observable top-level events of `main`: running the training loop for
an epoch (which sets the hook to TRAIN), running the evaluation loop (hook
EVAL), and the final `torch.save` of the state dict. -/
inductive Event where
  | trainPhase (epoch : ℕ)
  | testPhase (epoch : ℕ)
  | saveModel
deriving Repr, DecidableEq

/-- Whether an event is the model serialization. -/
def isSave : Event → Bool
  | .saveModel => true
  | _ => false

/-- The epoch loop of `main` (lines 140–144): for each epoch number, run
`train` (the returned model is rebound), then `test`, threading the model
object through.  `tb`/`vb` supply the per-epoch train/test batches. -/
def runEpochs (upd : ℚ → ℚ → ℚ) (tb vb : ℕ → List BatchData) :
    NetState → List ℕ → NetState × List Event
  | m, [] => (m, [])
  | m, e :: rest =>
    let m1 := (trainEpoch upd (tb e) m).net
    let m2 := (testEpoch (vb e) m1).net
    let r := runEpochs upd tb vb m2 rest
    (r.1, Event.trainPhase e :: Event.testPhase e :: r.2)

/-- `range(1, args.epochs + 1)`. -/
def epochRange (epochs : ℕ) : List ℕ := (List.range epochs).map (fun k => k + 1)

/-- The orchestration core of `main` (lines 140–147): run the epoch loop
over epochs `1..epochs`, then serialize the model once
(`torch.save(model.state_dict(), os.path.join(model_dir, 'model.pth'))`). -/
def mainRun (upd : ℚ → ℚ → ℚ) (tb vb : ℕ → List BatchData) (epochs : ℕ)
    (m0 : NetState) : NetState × List Event :=
  let r := runEpochs upd tb vb m0 (epochRange epochs)
  (r.1, r.2 ++ [Event.saveModel])

/-- Package one loader batch with the framework-produced data for its
iteration (forward outputs, scalar loss, gradient assignment), supplied by
oracles. -/
def mkBatch (outO : List ℕ → List (List ℚ)) (lossO : List ℕ → ℚ)
    (gradO : List ℕ → ℕ → ℚ) (labs : List ℕ) : BatchData :=
  ⟨labs, outO labs, lossO labs, gradO labs⟩

/-- `main` (lines 118–148) with its fallible prefix: the model is built
first (line 126), then the data loaders (line 132) — a missing data
directory raises there, before the epoch loop; on success the epoch loop
and the final save run.  `σ` is the per-epoch shuffle draw. -/
def mainRunIO (fs : String → Option (List ℕ)) (data_dir : String)
    (batch_size epochs : ℕ) (σ : ℕ → ℕ → ℕ) (upd : ℚ → ℚ → ℚ)
    (outO : List ℕ → List (List ℚ)) (lossO : List ℕ → ℚ)
    (gradO : List ℕ → ℕ → ℚ) (pre : Resnet50) (w1 : List (List ℚ))
    (b1 : List ℚ) (w2 : List (List ℚ)) (b2 : List ℚ) :
    Except String (NetState × List Event) :=
  let model := net pre w1 b1 w2 b2
  match create_data_loaders fs data_dir batch_size with
  | .error e => .error e
  | .ok loaders =>
    .ok (mainRun upd
      (fun e => (loaderBatches loaders.1 (σ e)).map (mkBatch outO lossO gradO))
      (fun e => (loaderBatches loaders.2 (σ e)).map (mkBatch outO lossO gradO))
      epochs model.paramState)

/-- Specification-side description of the progress-log points the training
loop actually produces: starting from a cumulative count `s0`, one log line
per batch whose end lands the cumulative sample count on an exact multiple
of 500. -/
def countLogPoints (s0 : ℕ) : List ℕ → ℕ
  | [] => 0
  | n :: rest => (if (s0 + n) % 500 = 0 then 1 else 0) + countLogPoints (s0 + n) rest

/-- Specification-side description of the epoch-loop trace: train then test
for each listed epoch. -/
def interleaveEvents : List ℕ → List Event
  | [] => []
  | e :: rest => Event.trainPhase e :: Event.testPhase e :: interleaveEvents rest

/-! ## Concrete instances used to evaluate the development -/

/-- A trivial parameter update oracle. -/
def upd0 : ℚ → ℚ → ℚ := fun v _ => v

/-- An empty model state. -/
def m0ex : NetState := ⟨[], [], true⟩

/-- A 300-sample batch (no outputs needed for counting samples). -/
def cex300 : BatchData := ⟨List.replicate 300 0, [], 0, fun _ => 0⟩

/-- A two-sample batch with concrete outputs and unit loss. -/
def bW1 : BatchData := ⟨[5, 6], [[1, 0], [0, 1]], 1, fun _ => 0⟩

/-- A one-sample batch with concrete outputs and unit loss. -/
def bW2 : BatchData := ⟨[7], [[0]], 1, fun _ => 0⟩

/-- A concrete pretrained model: no backbone parameters, a constant feature
map, and a one-neuron original head. -/
def preW : Resnet50 := ⟨[], fun _ => [1], [.linear (mkLinear 1 1 [[1]] [0])]⟩

/-- A filesystem on which every directory exists and holds three images. -/
def fsW : String → Option (List ℕ) := fun _ => some [0, 1, 2]

/-- A filesystem on which no directory exists. -/
def fsNone : String → Option (List ℕ) := fun _ => none

/-- A 256 × 256 image whose pixel value is its row index. -/
def img256 : QImage :=
  (List.range 256).map (fun r => (List.range 256).map (fun _ => (r : ℚ)))

/-! ## Helper lemmas -/

theorem accumGrads_map_value (g : ℕ → ℚ) :
    ∀ (i : ℕ) (ps : List Param),
      (accumGrads g i ps).map Param.value = ps.map Param.value := by
  intro i ps
  induction ps generalizing i with
  | nil => rfl
  | cons p ps ih =>
    simp only [accumGrads, List.map_cons, ih]
    by_cases hp : p.requiresGrad <;> simp [hp]

theorem trainBatchStep_backbone_value (upd : ℚ → ℚ → ℚ) (s : LoopState)
    (b : BatchData) :
    ((trainBatchStep upd s b).net.backboneParams).map Param.value
      = s.net.backboneParams.map Param.value := by
  simp [trainBatchStep, optStepFC, backwardStep, zeroGradFC, accumGrads_map_value]

theorem foldl_train_backbone_value (upd : ℚ → ℚ → ℚ) (batches : List BatchData) :
    ∀ s : LoopState,
      ((batches.foldl (trainBatchStep upd) s).net.backboneParams).map Param.value
        = s.net.backboneParams.map Param.value := by
  induction batches with
  | nil => intro s; rfl
  | cons b bs ih =>
    intro s
    rw [List.foldl_cons, ih, trainBatchStep_backbone_value]

theorem foldl_test_net (batches : List BatchData) :
    ∀ s : TestState, (batches.foldl testBatchStep s).net = s.net := by
  induction batches with
  | nil => intro s; rfl
  | cons b bs ih =>
    intro s
    rw [List.foldl_cons, ih]
    rfl

/-! ## Claims -/

/-- C1: a call to the training loop leaves the parameter values of the
frozen feature extractor (everything outside the replaced head `model.fc`)
bit-identical — the optimizer is bound only to head parameters, so only the
head's values can change. -/
theorem C1_train_only_mutates_head (upd : ℚ → ℚ → ℚ) (batches : List BatchData)
    (m : NetState) :
    ((trainEpoch upd batches m).net.backboneParams).map Param.value
      = m.backboneParams.map Param.value := by
  unfold trainEpoch
  rw [foldl_train_backbone_value]

/-- C2: a call to the evaluation loop leaves every model parameter
bit-identical: the whole pass runs without gradient computation and performs
no optimizer step, so evaluation is read-only on parameters. -/
theorem C2_test_readonly (batches : List BatchData) (m : NetState) :
    (testEpoch batches m).net.backboneParams = m.backboneParams ∧
    (testEpoch batches m).net.fcParams = m.fcParams := by
  unfold testEpoch
  rw [foldl_test_net]
  exact ⟨rfl, rfl⟩

theorem chunkGo_length_sum {α : Type} (bs : ℕ) (hbs : 0 < bs) :
    ∀ (fuel : ℕ) (l : List α), l.length ≤ fuel →
      ((chunkGo bs fuel l).map List.length).sum = l.length := by
  intro fuel
  induction fuel with
  | zero =>
    intro l hl
    cases l with
    | nil => rfl
    | cons x xs => simp at hl
  | succ n ih =>
    intro l hl
    cases l with
    | nil => rfl
    | cons x xs =>
      have hle : ((x :: xs).drop bs).length ≤ n := by
        simp only [List.length_drop, List.length_cons]
        simp only [List.length_cons] at hl
        omega
      simp only [chunkGo, List.map_cons, List.sum_cons, ih _ hle]
      simp only [List.length_take, List.length_drop, List.length_cons]
      omega

theorem chunkList_length_sum {α : Type} (bs : ℕ) (hbs : 0 < bs) (l : List α) :
    ((chunkList bs l).map List.length).sum = l.length := by
  unfold chunkList
  rw [if_neg (by omega)]
  exact chunkGo_length_sum bs hbs l.length l (le_refl _)

theorem shuffleBy_length (σ : ℕ → ℕ) (ds : List ℕ) :
    (shuffleBy σ ds).length = ds.length := by
  simp [shuffleBy]

theorem foldl_train_samples (upd : ℚ → ℚ → ℚ) (batches : List BatchData) :
    ∀ s : LoopState, (batches.foldl (trainBatchStep upd) s).running_samples
      = s.running_samples + (batches.map (fun b => b.labels.length)).sum := by
  induction batches with
  | nil => intro s; simp
  | cons b bs ih =>
    intro s
    rw [List.foldl_cons, ih]
    have h1 : (trainBatchStep upd s b).running_samples
        = s.running_samples + b.labels.length := rfl
    simp only [h1, List.map_cons, List.sum_cons]
    omega

/-- C6: after one full pass of the training loop over the batches the
loader yields, the running sample count (accumulated once per batch as the
batch length) equals the training dataset's total example count. -/
theorem C6_sample_count (upd : ℚ → ℚ → ℚ) (σ : ℕ → ℕ) (bs : ℕ) (ds : List ℕ)
    (batches : List BatchData) (m : NetState) (hbs : 0 < bs)
    (hb : batches.map BatchData.labels = loaderBatches ⟨ds, bs, true⟩ σ) :
    (trainEpoch upd batches m).running_samples = ds.length := by
  unfold trainEpoch
  rw [foldl_train_samples]
  have h1 : batches.map (fun b => b.labels.length)
      = (batches.map BatchData.labels).map List.length := by
    rw [List.map_map]
    rfl
  rw [h1, hb]
  show 0 + ((loaderBatches ⟨ds, bs, true⟩ σ).map List.length).sum = ds.length
  simp only [loaderBatches, if_pos]
  rw [chunkList_length_sum bs hbs, shuffleBy_length]
  omega

/-- C6 witness: a 3-example dataset in batches of 2 yields batches
[[5, 6], [7]] and a running sample count of 3. -/
theorem C6_witness :
    (0 < 2 ∧
      [bW1, bW2].map BatchData.labels = loaderBatches ⟨[5, 6, 7], 2, true⟩ id) ∧
    (trainEpoch upd0 [bW1, bW2] m0ex).running_samples = [5, 6, 7].length :=
  ⟨⟨by decide, by decide⟩,
    C6_sample_count upd0 id 2 [5, 6, 7] [bW1, bW2] m0ex (by decide) (by decide)⟩

theorem countMatches_le (preds labs : List ℕ) :
    countMatches preds labs ≤ labs.length := by
  unfold countMatches
  calc (preds.zip labs).countP (fun pl => decide (pl.1 = pl.2))
      ≤ (preds.zip labs).length := List.countP_le_length _
    _ ≤ labs.length := by rw [List.length_zip]; omega

theorem foldl_train_loss_nonneg (upd : ℚ → ℚ → ℚ) (batches : List BatchData) :
    ∀ s : LoopState, 0 ≤ s.run_loss → (∀ b ∈ batches, 0 ≤ b.lossVal) →
      0 ≤ (batches.foldl (trainBatchStep upd) s).run_loss := by
  induction batches with
  | nil => intro s hs _; simpa using hs
  | cons b bs ih =>
    intro s hs hb
    rw [List.foldl_cons]
    apply ih
    · show 0 ≤ s.run_loss + b.lossVal * b.labels.length
      have h0 : 0 ≤ b.lossVal := hb b (List.mem_cons_self b bs)
      have h1 : (0 : ℚ) ≤ b.lossVal * b.labels.length :=
        mul_nonneg h0 (by positivity)
      linarith
    · intro b2 hb2
      exact hb b2 (List.mem_cons_of_mem b hb2)

theorem foldl_train_corrects_le (upd : ℚ → ℚ → ℚ) (batches : List BatchData) :
    ∀ s : LoopState, (batches.foldl (trainBatchStep upd) s).running_corrects
      ≤ s.running_corrects + (batches.map (fun b => b.labels.length)).sum := by
  induction batches with
  | nil => intro s; simp
  | cons b bs ih =>
    intro s
    rw [List.foldl_cons]
    refine le_trans (ih _) ?_
    have h1 : (trainBatchStep upd s b).running_corrects
        = s.running_corrects + countMatches (b.out.map argmaxIdx) b.labels := rfl
    have h2 := countMatches_le (b.out.map argmaxIdx) b.labels
    simp only [h1, List.map_cons, List.sum_cons]
    omega

theorem foldl_test_loss_nonneg (batches : List BatchData) :
    ∀ s : TestState, 0 ≤ s.run_loss → (∀ b ∈ batches, 0 ≤ b.lossVal) →
      0 ≤ (batches.foldl testBatchStep s).run_loss := by
  induction batches with
  | nil => intro s hs _; simpa using hs
  | cons b bs ih =>
    intro s hs hb
    rw [List.foldl_cons]
    apply ih
    · show 0 ≤ s.run_loss + b.lossVal * b.labels.length
      have h0 : 0 ≤ b.lossVal := hb b (List.mem_cons_self b bs)
      have h1 : (0 : ℚ) ≤ b.lossVal * b.labels.length :=
        mul_nonneg h0 (by positivity)
      linarith
    · intro b2 hb2
      exact hb b2 (List.mem_cons_of_mem b hb2)

theorem foldl_test_corrects_le (batches : List BatchData) :
    ∀ s : TestState, (batches.foldl testBatchStep s).running_corrects
      ≤ s.running_corrects + (batches.map (fun b => b.labels.length)).sum := by
  induction batches with
  | nil => intro s; simp
  | cons b bs ih =>
    intro s
    rw [List.foldl_cons]
    refine le_trans (ih _) ?_
    have h1 : (testBatchStep s b).running_corrects
        = s.running_corrects + countMatches (b.out.map argmaxIdx) b.labels := rfl
    have h2 := countMatches_le (b.out.map argmaxIdx) b.labels
    simp only [h1, List.map_cons, List.sum_cons]
    omega

theorem epochAccuracy_nonneg (c N : ℕ) : 0 ≤ epochAccuracy c N := by
  unfold epochAccuracy
  positivity

theorem epochAccuracy_le_one (c N : ℕ) (hc : c ≤ N) (hN : 0 < N) :
    epochAccuracy c N ≤ 1 := by
  unfold epochAccuracy
  rw [div_le_one (by exact_mod_cast hN)]
  exact_mod_cast hc

/-- C5: for an epoch of either loop, the finalized epoch accuracy
(running correct-count over total dataset size) lies in [0, 1] and the
finalized average loss (running loss sum over total dataset size) is
non-negative, given non-negative per-batch losses. -/
theorem C5_epoch_stats_bounds (upd : ℚ → ℚ → ℚ)
    (trBatches teBatches : List BatchData) (m1 m2 : NetState) (N1 N2 : ℕ)
    (hN1 : (trBatches.map (fun b => b.labels.length)).sum = N1)
    (hN2 : (teBatches.map (fun b => b.labels.length)).sum = N2)
    (hpos1 : 0 < N1) (hpos2 : 0 < N2)
    (hl1 : ∀ b ∈ trBatches, 0 ≤ b.lossVal)
    (hl2 : ∀ b ∈ teBatches, 0 ≤ b.lossVal) :
    0 ≤ epochAvgLoss (trainEpoch upd trBatches m1).run_loss N1 ∧
    0 ≤ epochAccuracy (trainEpoch upd trBatches m1).running_corrects N1 ∧
    epochAccuracy (trainEpoch upd trBatches m1).running_corrects N1 ≤ 1 ∧
    0 ≤ epochAvgLoss (testEpoch teBatches m2).run_loss N2 ∧
    0 ≤ epochAccuracy (testEpoch teBatches m2).running_corrects N2 ∧
    epochAccuracy (testEpoch teBatches m2).running_corrects N2 ≤ 1 := by
  have htrl : 0 ≤ (trainEpoch upd trBatches m1).run_loss := by
    unfold trainEpoch
    exact foldl_train_loss_nonneg upd trBatches _ (le_refl 0) hl1
  have htel : 0 ≤ (testEpoch teBatches m2).run_loss := by
    unfold testEpoch
    exact foldl_test_loss_nonneg teBatches _ (le_refl 0) hl2
  have htrc : (trainEpoch upd trBatches m1).running_corrects ≤ N1 := by
    unfold trainEpoch
    refine le_trans (foldl_train_corrects_le upd trBatches _) ?_
    simp [hN1]
  have htec : (testEpoch teBatches m2).running_corrects ≤ N2 := by
    unfold testEpoch
    refine le_trans (foldl_test_corrects_le teBatches _) ?_
    simp [hN2]
  refine ⟨?_, epochAccuracy_nonneg _ _, epochAccuracy_le_one _ _ htrc hpos1,
    ?_, epochAccuracy_nonneg _ _, epochAccuracy_le_one _ _ htec hpos2⟩
  · unfold epochAvgLoss
    positivity
  · unfold epochAvgLoss
    positivity

/-- C5 witness: a concrete 3-example epoch for both loops, with losses 1 and
dataset size 3, meets all the bounds. -/
theorem C5_witness :
    (([bW1, bW2].map (fun b => b.labels.length)).sum = 3 ∧ 0 < 3 ∧
      (∀ b ∈ [bW1, bW2], 0 ≤ b.lossVal)) ∧
    (0 ≤ epochAvgLoss (trainEpoch upd0 [bW1, bW2] m0ex).run_loss 3 ∧
     0 ≤ epochAccuracy (trainEpoch upd0 [bW1, bW2] m0ex).running_corrects 3 ∧
     epochAccuracy (trainEpoch upd0 [bW1, bW2] m0ex).running_corrects 3 ≤ 1 ∧
     0 ≤ epochAvgLoss (testEpoch [bW1, bW2] m0ex).run_loss 3 ∧
     0 ≤ epochAccuracy (testEpoch [bW1, bW2] m0ex).running_corrects 3 ∧
     epochAccuracy (testEpoch [bW1, bW2] m0ex).running_corrects 3 ≤ 1) :=
  ⟨⟨by decide, by decide, by decide⟩,
    C5_epoch_stats_bounds upd0 [bW1, bW2] [bW1, bW2] m0ex m0ex 3 3
      (by decide) (by decide) (by decide) (by decide) (by decide) (by decide)⟩

theorem foldl_train_logLines (upd : ℚ → ℚ → ℚ) (batches : List BatchData) :
    ∀ s : LoopState, (batches.foldl (trainBatchStep upd) s).logLines
      = s.logLines
        + countLogPoints s.running_samples (batches.map (fun b => b.labels.length)) := by
  induction batches with
  | nil => intro s; simp [countLogPoints]
  | cons b bs ih =>
    intro s
    rw [List.foldl_cons, ih]
    have hs : (trainBatchStep upd s b).running_samples
        = s.running_samples + b.labels.length := rfl
    have hl : (trainBatchStep upd s b).logLines
        = if (s.running_samples + b.labels.length) % 500 = 0
          then s.logLines + 1 else s.logLines := rfl
    simp only [hs, hl, List.map_cons, countLogPoints]
    by_cases hmod : (s.running_samples + b.labels.length) % 500 = 0
    · rw [if_pos hmod, if_pos hmod]; omega
    · rw [if_neg hmod, if_neg hmod]; omega

/-- C4 amended: during one training-loop epoch a progress log line is
emitted after exactly those batches whose end lands the cumulative sample
count on an exact multiple of 500; a multiple of 500 crossed in the middle
of a batch produces no line. -/
theorem C4_amended_log_on_exact_multiples (upd : ℚ → ℚ → ℚ)
    (batches : List BatchData) (m : NetState) :
    (trainEpoch upd batches m).logLines
      = countLogPoints 0 (batches.map (fun b => b.labels.length)) := by
  unfold trainEpoch
  rw [foldl_train_logLines]
  show 0 + countLogPoints 0 (batches.map (fun b => b.labels.length)) = _
  omega

set_option maxRecDepth 4000 in
/-- C4 counterexample: two batches of 300 samples process 600 samples, so
the claim demands one progress line for the first cumulative 500 samples
(⌊600 / 500⌋ = 1), but the loop emits none — 300 and 600 are not exact
multiples of 500. -/
theorem C4_counterexample :
    (trainEpoch upd0 [cex300, cex300] m0ex).running_samples = 600 ∧
    (trainEpoch upd0 [cex300, cex300] m0ex).logLines = 0 ∧
    (trainEpoch upd0 [cex300, cex300] m0ex).logLines
      ≠ (trainEpoch upd0 [cex300, cex300] m0ex).running_samples / 500 := by
  refine ⟨?_, ?_, ?_⟩ <;> decide

theorem all_map_freezeParam (ps : List Param) :
    (ps.map freezeParam).all (fun p => !p.requiresGrad) = true := by
  induction ps with
  | nil => rfl
  | cons p ps ih => simp [freezeParam, ih]

theorem fcInFeaturesOf_freeze (fc : List HeadLayer) :
    fcInFeaturesOf (fc.map freezeHeadLayer) = fcInFeaturesOf fc := by
  cases fc with
  | nil => rfl
  | cons l ls =>
    cases l with
    | linear lin => rfl
    | relu => rfl

/-- C7: `net()` returns a model whose backbone parameters are all marked
frozen (`requires_grad = False`), whose original classification head is
replaced, the new head being exactly
`Linear(in_features, 256) → ReLU → Linear(256, 133) → ReLU` with the class
count fixed at 133. -/
theorem C7_net_structure (pre : Resnet50) (w1 : List (List ℚ)) (b1 : List ℚ)
    (w2 : List (List ℚ)) (b2 : List ℚ) :
    ((net pre w1 b1 w2 b2).backboneParams.all (fun p => !p.requiresGrad)) = true ∧
    (net pre w1 b1 w2 b2).fc
      = [.linear (mkLinear (fcInFeatures pre) 256 w1 b1), .relu,
         .linear (mkLinear 256 133 w2 b2), .relu] := by
  constructor
  · exact all_map_freezeParam pre.backboneParams
  · show [HeadLayer.linear
        (mkLinear (fcInFeaturesOf (pre.fc.map freezeHeadLayer)) 256 w1 b1),
      .relu, .linear (mkLinear 256 133 w2 b2), .relu] = _
    rw [fcInFeaturesOf_freeze]
    rfl

theorem mem_reluVec_nonneg (v : List ℚ) (y : ℚ) (hy : y ∈ reluVec v) : 0 ≤ y := by
  unfold reluVec at hy
  obtain ⟨z, hz, hzy⟩ := List.mem_map.mp hy
  rw [← hzy]
  by_cases hz0 : z ≤ 0
  · rw [if_pos hz0]
  · rw [if_neg hz0]
    linarith

/-- C10: every class-score vector produced by the model built by `net()` is
elementwise non-negative — the head's final layer output passes through a
ReLU before being returned. -/
theorem C10_scores_nonneg (pre : Resnet50) (w1 : List (List ℚ)) (b1 : List ℚ)
    (w2 : List (List ℚ)) (b2 : List ℚ) (x : List ℚ) (y : ℚ)
    (hy : y ∈ (net pre w1 b1 w2 b2).forward x) : 0 ≤ y :=
  mem_reluVec_nonneg _ y hy

/-- C10 witness: a concrete tiny model built by `net` produces the score 1,
which is non-negative. -/
theorem C10_witness :
    (1 : ℚ) ∈ (net preW [[1]] [0] [[1]] [0]).forward [0] ∧ (0 : ℚ) ≤ 1 := by
  have heq : (net preW [[1]] [0] [[1]] [0]).forward [0] = [1] := by
    simp [net, preW, Resnet50.forward, applyHeadLayer, applyLinear, reluVec, dotQ,
      mkLinear, fcInFeatures, fcInFeaturesOf, freezeHeadLayer, freezeParam]
    norm_num
  have hmem : (1 : ℚ) ∈ (net preW [[1]] [0] [[1]] [0]).forward [0] := by
    rw [heq]
    exact List.mem_singleton.mpr rfl
  exact ⟨hmem, C10_scores_nonneg preW [[1]] [0] [[1]] [0] [0] 1 hmem⟩

theorem runEpochs_trace (upd : ℚ → ℚ → ℚ) (tb vb : ℕ → List BatchData) :
    ∀ (l : List ℕ) (m : NetState),
      (runEpochs upd tb vb m l).2 = interleaveEvents l := by
  intro l
  induction l with
  | nil => intro m; rfl
  | cons e rest ih =>
    intro m
    simp only [runEpochs, interleaveEvents]
    rw [ih]

theorem interleave_no_save (l : List ℕ) :
    (interleaveEvents l).any isSave = false := by
  induction l with
  | nil => rfl
  | cons e rest ih => simp [interleaveEvents, isSave, ih]

/-- C8: the orchestrator's trace is the training loop followed by the
evaluation loop for each epoch 1..epoch_count, then exactly one model
serialization at the very end — never mid-run. -/
theorem C8_orchestration (upd : ℚ → ℚ → ℚ) (tb vb : ℕ → List BatchData)
    (epochs : ℕ) (m0 : NetState) :
    (mainRun upd tb vb epochs m0).2
      = interleaveEvents (epochRange epochs) ++ [Event.saveModel] ∧
    (interleaveEvents (epochRange epochs)).any isSave = false := by
  constructor
  · show (runEpochs upd tb vb m0 (epochRange epochs)).2 ++ [Event.saveModel] = _
    rw [runEpochs_trace]
  · exact interleave_no_save _

/-- C9: when `data_dir` points to a nonexistent path, the run fails during
data-loader construction with the loader's file-not-found error, before the
first epoch: the result trace is empty, so no batch is processed and no
epoch-progress line is emitted. -/
theorem C9_missing_data_dir (fs : String → Option (List ℕ)) (data_dir : String)
    (batch_size epochs : ℕ) (σ : ℕ → ℕ → ℕ) (upd : ℚ → ℚ → ℚ)
    (outO : List ℕ → List (List ℚ)) (lossO : List ℕ → ℚ)
    (gradO : List ℕ → ℕ → ℚ) (pre : Resnet50) (w1 : List (List ℚ))
    (b1 : List ℚ) (w2 : List (List ℚ)) (b2 : List ℚ)
    (hmissing : ∀ p : String, fs (data_dir ++ p) = none) :
    mainRunIO fs data_dir batch_size epochs σ upd outO lossO gradO pre w1 b1 w2 b2
      = .error "FileNotFoundError" := by
  unfold mainRunIO create_data_loaders
  rw [hmissing "/train"]

/-- C9 witness: on a filesystem with no directories at all, the run is the
loader-construction error. -/
theorem C9_witness :
    mainRunIO fsNone "data" 4 2 (fun _ _ => 0) upd0 (fun _ => []) (fun _ => 0)
        (fun _ _ => 0) preW [[1]] [0] [[1]] [0]
      = .error "FileNotFoundError" :=
  C9_missing_data_dir fsNone "data" 4 2 (fun _ _ => 0) upd0 (fun _ => [])
    (fun _ => 0) (fun _ _ => 0) preW [[1]] [0] [[1]] [0] (fun _ => rfl)

theorem divBy255_eq (x : ℚ) : divBy255 x = x / 255 := by
  unfold divBy255
  rw [Rat.mkRat_eq_div]
  have hden : ((x.den : ℚ)) ≠ 0 := by
    exact_mod_cast x.den_nz
  have hnum : ((x.num : ℚ)) = x * x.den :=
    (div_eq_iff hden).mp (Rat.num_div_den x)
  push_cast
  field_simp
  rw [hnum]
  ring

set_option maxRecDepth 20000 in
/-- C3 counterexample: the test-set preprocessing is not deterministic —
`testing_transform` contains `RandomResizedCrop`, and on a concrete
256 × 256 image two different crop draws produce different tensors (they
already differ at pixel (0, 0)). -/
theorem C3_counterexample :
    testing_transform ⟨0, 0, 224, 224⟩ img256
      ≠ testing_transform ⟨32, 0, 224, 224⟩ img256 := by
  intro heq
  have h00 : pixAt (testing_transform ⟨0, 0, 224, 224⟩ img256) 0 0
      = pixAt (testing_transform ⟨32, 0, 224, 224⟩ img256) 0 0 := by
    rw [heq]
  have hne : pixAt (testing_transform ⟨0, 0, 224, 224⟩ img256) 0 0
      ≠ pixAt (testing_transform ⟨32, 0, 224, 224⟩ img256) 0 0 := by decide
  exact hne h00

set_option maxRecDepth 20000 in
/-- C3 amended: the test data loader yields batches in a fixed, unshuffled
order — identical across passes, independent of the sampling draw — but the
per-image test transform includes a random resized crop, so two
applications of it to the same image can yield different tensors. -/
theorem C3_amended_test_loader_order (fs : String → Option (List ℕ))
    (data : String) (bs : ℕ) (L : DataLoaderSpec × DataLoaderSpec)
    (σ1 σ2 : ℕ → ℕ) (hok : create_data_loaders fs data bs = .ok L) :
    loaderBatches L.2 σ1 = loaderBatches L.2 σ2 ∧
    ∃ (img : QImage) (p1 p2 : CropParams),
      testing_transform p1 img ≠ testing_transform p2 img := by
  constructor
  · unfold create_data_loaders at hok
    cases htr : fs (data ++ "/train") with
    | none =>
      rw [htr] at hok
      exact Except.noConfusion hok
    | some tr =>
      rw [htr] at hok
      cases hte : fs (data ++ "/test") with
      | none =>
        rw [hte] at hok
        exact Except.noConfusion hok
      | some te =>
        rw [hte] at hok
        have hL := Except.ok.inj hok
        rw [← hL]
        rfl
  · refine ⟨img256, ⟨0, 0, 224, 224⟩, ⟨32, 0, 224, 224⟩, ?_⟩
    intro heq
    have h00 : pixAt (testing_transform ⟨0, 0, 224, 224⟩ img256) 0 0
        = pixAt (testing_transform ⟨32, 0, 224, 224⟩ img256) 0 0 := by
      rw [heq]
    have hne : pixAt (testing_transform ⟨0, 0, 224, 224⟩ img256) 0 0
        ≠ pixAt (testing_transform ⟨32, 0, 224, 224⟩ img256) 0 0 := by decide
    exact hne h00

/-- C3 witness: on a filesystem where the loaders construct, the test
loader's batch order is independent of the shuffling draw. -/
theorem C3_witness :
    loaderBatches ((⟨[0, 1, 2], 2, true⟩, ⟨[0, 1, 2], 2, false⟩) :
        DataLoaderSpec × DataLoaderSpec).2 id
      = loaderBatches ((⟨[0, 1, 2], 2, true⟩, ⟨[0, 1, 2], 2, false⟩) :
        DataLoaderSpec × DataLoaderSpec).2 Nat.succ ∧
    ∃ (img : QImage) (p1 p2 : CropParams),
      testing_transform p1 img ≠ testing_transform p2 img :=
  C3_amended_test_loader_order fsW "d" 2
    ((⟨[0, 1, 2], 2, true⟩, ⟨[0, 1, 2], 2, false⟩)) id Nat.succ rfl
